import Mathlib

/-!
Shallow embedding of the `actuate-core` incremental-composition runtime
(`src/crates/actuate-core/src/lib.rs`) and proofs about its hook
primitives, reference handles, update scheduling and composer driver.

Hook slots are type-erased `Box<dyn Any>` values in the source; here a
single universal value type `V` plays the role of the erased payload, and
a failed `downcast` (a panic in the source) is an `Option.none`.  Raw
pointers into a slot become slot indices into the owning `ScopeData`.
Deferred updates (`Box<dyn FnOnce()>`) become first-class `PendingUpdate`
data applied against the scope.
-/

namespace Actuate

/-- One type-erased hook slot of a `ScopeData`: an immutable `use_ref`
value, a `MutState { value, generation }` cell from `use_mut`, or a
boxed teardown callback registered by `use_drop` (identified by a label;
`spent` records that its inner `FnOnce` was already taken). -/
inductive HookSlot (V : Type) where
  | ref (value : V)
  | mutS (value : V) (generation : Nat)
  | dropFn (callback : Nat) (spent : Bool)
deriving DecidableEq

/-- Embeds `ScopeData`: per-composable persistent state (hooks list, hook
cursor, change flags, context map, drop-slot indices, generation).
The context map `HashMap<TypeId, Rc<dyn Any>>` is modelled as an
association list from a numeric type id to `V`. -/
structure ScopeData (V : Type) where
  hooks : List (HookSlot V)
  hook_idx : Nat
  is_changed : Bool
  is_parent_changed : Bool
  is_empty : Bool
  is_container : Bool
  contexts : List (Nat × V)
  drops : List Nat
  generation : Nat
deriving DecidableEq

/-- Embeds `ScopeData::default()`. -/
def freshScope (V : Type) : ScopeData V :=
  ⟨[], 0, false, false, false, false, [], [], 0⟩

/-- A deferred mutation produced by a `Mut` handle: `Mut::update`'s
closure applies `f`, sets the owning scope's `is_changed` and bumps the
slot generation; `Mut::with`'s closure only applies `f`. -/
inductive PendingUpdate (V : Type) where
  | update (idx : Nat) (f : V → V)
  | withP (idx : Nat) (f : V → V)

/-- Embeds `Update::apply`: run a deferred mutation against the scope.  `none`
models the unsafe-contract violation of applying against a slot that is
not a live `MutState` cell. -/
def applyPending (cx : ScopeData V) : PendingUpdate V → Option (ScopeData V)
  | .update idx f =>
    match cx.hooks[idx]? with
    | some (.mutS v g) =>
      some { cx with hooks := cx.hooks.set idx (.mutS (f v) (g + 1)), is_changed := true }
    | _ => none
  | .withP idx f =>
    match cx.hooks[idx]? with
    | some (.mutS v g) =>
      some { cx with hooks := cx.hooks.set idx (.mutS (f v) g) }
    | _ => none

/-- The `Updater` capability behind a `Runtime`: `DefaultUpdater`
(installed by `Composer::new`) applies an update the instant it arrives;
the queued policy (the spec's second expected policy) collects updates
to be replayed after the pass. -/
inductive UpdaterKind where
  | immediate
  | queued
deriving DecidableEq

/-- A scope together with the updater's pending queue. -/
structure World (V : Type) where
  scope : ScopeData V
  queue : List (PendingUpdate V)

/-- Embeds `Runtime::current()`: returns the thread-local installed runtime,
panicking (modelled as `Except.error` with the panic message) when none
is installed. -/
def Runtime.current (installed : Option UpdaterKind) : Except String UpdaterKind :=
  match installed with
  | none => .error ("Runtime current called outside of a runtime")
  | some rt => .ok rt

/-- Embeds `Runtime::update`: hand a boxed update to the updater.  The
immediate policy applies it synchronously; the queued policy appends it
to the pending queue. -/
def Runtime.update (rt : UpdaterKind) (w : World V) (u : PendingUpdate V) : Option (World V) :=
  match rt with
  | .immediate => (applyPending w.scope u).map fun s => { w with scope := s }
  | .queued => some { w with queue := w.queue ++ [u] }

/-- Replay the pending queue in enqueue order (the queued policy's
after-pass apply step). -/
def flushQueue (w : World V) : Option (World V) :=
  (w.queue.foldlM applyPending w.scope).map fun s => ⟨s, []⟩

/-- A `Mut<'a, T>` handle: in the source a raw pointer into a `MutState`
slot plus pointers to the scope's `is_changed` flag and the slot's
generation cell; here the slot index. -/
structure Mut where
  idx : Nat
deriving DecidableEq

/-- A `Ref<'a, T>` handle: a borrowed value plus a pointer to the
generation cell that governs it; here the slot index it points into. -/
structure Ref where
  idx : Nat
deriving DecidableEq

/-- Embeds `Mut::update`: looks up the current runtime (panicking when absent)
and enqueues a closure that applies `f`, sets `is_changed` and bumps the
generation. -/
def Mut.update (installed : Option UpdaterKind) (m : Mut) (f : V → V) (w : World V) :
    Option (World V) :=
  match Runtime.current installed with
  | .error _ => none
  | .ok rt => Runtime.update rt w (.update m.idx f)

/-- Embeds `Mut::with`: looks up the current runtime (panicking when absent)
and enqueues a closure that applies `f` without touching `is_changed` or
the generation. -/
def Mut.with' (installed : Option UpdaterKind) (m : Mut) (f : V → V) (w : World V) :
    Option (World V) :=
  match Runtime.current installed with
  | .error _ => none
  | .ok rt => Runtime.update rt w (.withP m.idx f)

/-- Embeds `Mut::as_ref`: convert to an immutable reference over the same slot
and generation cell. -/
def Mut.as_ref (m : Mut) : Ref :=
  ⟨m.idx⟩

/-- Dereference a `Mut` (a read of the pointed-to `MutState` value). -/
def Mut.deref (cx : ScopeData V) (m : Mut) : Option V :=
  match cx.hooks[m.idx]? with
  | some (.mutS v _) => some v
  | _ => none

/-- Embeds `Memoize for Mut`: the memo key is the slot's generation counter. -/
def Mut.memoized (cx : ScopeData V) (m : Mut) : Option Nat :=
  match cx.hooks[m.idx]? with
  | some (.mutS _ g) => some g
  | _ => none

/-- Dereference a `Ref` obtained from `Mut::as_ref`. -/
def Ref.deref (cx : ScopeData V) (r : Ref) : Option V :=
  match cx.hooks[r.idx]? with
  | some (.mutS v _) => some v
  | _ => none

/-- Embeds `Memoize for Ref`: the memo key is the generation counter the
reference carries a pointer to. -/
def Ref.memoized (cx : ScopeData V) (r : Ref) : Option Nat :=
  match cx.hooks[r.idx]? with
  | some (.mutS _ g) => some g
  | _ => none

/-- Embeds `use_ref`: read the cursor, advance it; on a fresh slot run
`make_value` once and push the result, otherwise return the stored value
(`none` models the `downcast_ref().unwrap()` panic on a slot of the
wrong shape).  The returned `Bool` records whether `make_value` ran. -/
def use_ref (cx : ScopeData V) (make_value : Unit → V) : Option (V × Bool × ScopeData V) :=
  let idx := cx.hook_idx
  let cx1 : ScopeData V := { cx with hook_idx := idx + 1 }
  if cx1.hooks.length ≤ idx then
    let v := make_value ()
    some (v, true, { cx1 with hooks := cx1.hooks ++ [.ref v] })
  else
    match cx1.hooks[idx]? with
    | some (.ref v) => some (v, false, cx1)
    | _ => none

/-- Embeds `use_mut`: as `use_ref` but the fresh slot is a
`MutState { value := make_value(), generation := 0 }`; returns the `Mut`
handle (pointing at the slot), whether `make_value` ran, and the scope. -/
def use_mut (cx : ScopeData V) (make_value : Unit → V) : Option (Mut × Bool × ScopeData V) :=
  let idx := cx.hook_idx
  let cx1 : ScopeData V := { cx with hook_idx := idx + 1 }
  if cx1.hooks.length ≤ idx then
    some (⟨cx1.hooks.length⟩, true,
      { cx1 with hooks := cx1.hooks ++ [.mutS (make_value ()) 0] })
  else
    match cx1.hooks[idx]? with
    | some (.mutS _ _) => some (⟨idx⟩, false, cx1)
    | _ => none

/-- Embeds `ContextError<T>`: the typed context-not-found failure, carrying
(the type id standing for) the requested type's name. -/
structure ContextError where
  typeId : Nat
deriving DecidableEq

/-- Lookup in the context map. -/
def ctxLookup (m : List (Nat × V)) (k : Nat) : Option V :=
  (m.find? fun p => p.1 == k).map fun p => p.2

/-- Embeds `HashMap::insert`: the new binding replaces any previous binding of
the same type id. -/
def ctxInsert (m : List (Nat × V)) (k : Nat) (v : V) : List (Nat × V) :=
  (k, v) :: m.filter fun p => p.1 != k

/-- Embeds `use_context::<T>`: look the type id up in this scope's context map;
`Ok` with the shared value, or a recoverable `ContextError` naming `T`. -/
def use_context (cx : ScopeData V) (tid : Nat) : Except ContextError V :=
  match ctxLookup cx.contexts tid with
  | none => .error ⟨tid⟩
  | some v => .ok v

/-- Embeds `use_provider::<T>`: a `use_ref` whose init builds the shared value
and inserts it into this scope's context map under `T`'s type id; the
stored shared value is returned on every call. -/
def use_provider (cx : ScopeData V) (tid : Nat) (make_value : Unit → V) :
    Option (V × ScopeData V) :=
  let idx := cx.hook_idx
  let cx1 : ScopeData V := { cx with hook_idx := idx + 1 }
  if cx1.hooks.length ≤ idx then
    let value := make_value ()
    some (value, { cx1 with
      hooks := cx1.hooks ++ [.ref value],
      contexts := ctxInsert cx1.contexts tid value })
  else
    match cx1.hooks[idx]? with
    | some (.ref v) => some (v, cx1)
    | _ => none

/-- Child-scope construction as in `RefMap::compose` / `Map::compose`:
a fresh `ScopeData::default()` whose context map is cloned from the
parent and whose `is_parent_changed` is copied from the parent. -/
def childScope (parent : ScopeData V) : ScopeData V :=
  { freshScope V with
    contexts := parent.contexts,
    is_parent_changed := parent.is_parent_changed }

/-- Embeds `use_drop`: reads the cursor, then performs a `use_ref` whose init
pushes that index onto `drops` and stores the boxed teardown callback
(identified by the label `cb`).  On a non-fresh slot the init does not
run, so registration happens once per slot. -/
def use_drop (cx : ScopeData V) (cb : Nat) : Option (ScopeData V) :=
  let idx := cx.hook_idx
  let cx1 : ScopeData V := { cx with hook_idx := idx + 1 }
  if cx1.hooks.length ≤ idx then
    some { cx1 with
      hooks := cx1.hooks ++ [.dropFn cb false],
      drops := cx1.drops ++ [idx] }
  else
    match cx1.hooks[idx]? with
    | some (.dropFn _ _) => some cx1
    | _ => none

/-- The loop body of `impl Drop for ScopeData`: for each recorded index,
take and run the stored teardown callback (`none` models the `unwrap`
panic on a missing or already-spent callback).  Returns the labels of
the callbacks run, in order, plus the hooks afterwards. -/
def runDrops (hooks : List (HookSlot V)) : List Nat → Option (List Nat × List (HookSlot V))
  | [] => some ([], hooks)
  | idx :: rest =>
    match hooks[idx]? with
    | some (.dropFn cb false) =>
      match runDrops (hooks.set idx (.dropFn cb true)) rest with
      | some (cbs, h) => some (cb :: cbs, h)
      | none => none
    | _ => none

/-- Embeds `drop(ScopeData)`: destroying the scope runs every registered
teardown callback, in registration order; result is the label sequence
actually run. -/
def destroy (cx : ScopeData V) : Option (List Nat) :=
  (runDrops cx.hooks cx.drops).map fun p => p.1

/-- The result of `use_memo`: the returned `Ref` (from
`value_mut.as_ref()`), the world afterwards, and how many times
`make_value` was invoked during the call. -/
structure MemoOut (V : Type) where
  ref : Ref
  world : World V
  calls : Nat

/-- Embeds `use_memo`: two `use_mut` slots (value, then last-seen memo key).
On a fresh call both inits consume and run their cells; on a repeat
call, when the new key differs from the stored one, `make_value` runs
once and the value and key slots are silently overwritten through
`Mut::with`; when equal, nothing changes.  Returns `value_mut.as_ref()`. -/
def use_memo [DecidableEq V] (installed : Option UpdaterKind) (w : World V)
    (depKey : V) (make_value : Unit → V) : Option (MemoOut V) :=
  match use_mut w.scope make_value with
  | none => none
  | some (value_mut, vInit, s1) =>
    match use_mut s1 (fun _ => depKey) with
    | none => none
    | some (hash_mut, hInit, s2) =>
      let w2 : World V := { w with scope := s2 }
      if vInit then some ⟨value_mut.as_ref, w2, 1⟩
      else if hInit then some ⟨value_mut.as_ref, w2, 0⟩
      else
        match Mut.deref s2 hash_mut with
        | none => none
        | some stored =>
          if depKey ≠ stored then
            let value := make_value ()
            match Mut.with' installed value_mut (fun _ => value) w2 with
            | none => none
            | some w3 =>
              match Mut.with' installed hash_mut (fun _ => depKey) w3 with
              | none => none
              | some w4 => some ⟨value_mut.as_ref, w4, 1⟩
          else some ⟨value_mut.as_ref, w2, 0⟩

/-- Modelled from the spec: a new compose pass for a node begins by
resetting that node's hook cursor to zero (the reset itself lives in the
`compose` module, which is not under `src/`). -/
def beginPass (cx : ScopeData V) : ScopeData V :=
  { cx with hook_idx := 0 }

/-- A sequence of `n` compose passes over a node whose composition
function performs one `use_ref init2` call per pass. -/
def refPasses (init2 : Unit → V) (cx : ScopeData V) : Nat → Option (ScopeData V)
  | 0 => some cx
  | n + 1 =>
    match refPasses init2 cx n with
    | none => none
    | some s => (use_ref (beginPass s) init2).map fun r => r.2.2

/-- Whether a hook slot stores a teardown callback. -/
def HookSlot.isDrop : HookSlot V → Bool
  | .dropFn _ _ => true
  | _ => false

/-- One pass of a composition function that registers a sequence of
teardown callbacks, one `use_drop` call per label. -/
def registerAll (cx : ScopeData V) : List Nat → Option (ScopeData V)
  | [] => some cx
  | cb :: rest =>
    match use_drop cx cb with
    | none => none
    | some s => registerAll s rest

end Actuate

namespace ActuateCow

/-- Embeds `RefMap<'a, T>`: an immutable reference (with its generation cell)
or a mapped reference re-deriving the target through a stored projection
on every dereference. -/
inductive RefMap (β α : Type) where
  | refH (value : α) (generation : Nat)
  | mapped (base : β) (map_fn : β → α)

/-- Embeds `Deref for RefMap`. -/
def RefMap.deref : RefMap β α → α
  | .refH v _ => v
  | .mapped b f => f b

/-- Embeds `Cow<'a, T>`: borrowed (as a `RefMap`) or owned value. -/
inductive Cow (β α : Type) where
  | Borrowed (r : RefMap β α)
  | Owned (value : α)

/-- Embeds `Cow::into_owned`: clone the borrowed target, or move the owned
value out.  `clone` stands for `T::clone`. -/
def Cow.into_owned (clone : α → α) : Cow β α → α
  | .Borrowed r => clone r.deref
  | .Owned v => v

/-- Embeds `Deref for Cow`. -/
def Cow.deref : Cow β α → α
  | .Borrowed r => r.deref
  | .Owned v => v

end ActuateCow

namespace ActuateTree

/-- Modelled from the spec: the composable trees of the reference tests
(`tests::it_composes`, `tests::it_memoizes_composables`).  The recursive
one-level-at-a-time traversal and the `Memo` composable live in the
`compose` module, which is not under `src/`.  `counter` is the
`Counter`/`B` composable (increments a shared cell each time it is
composed), `wrap` the forwarding wrapper (`Wrap`/`A`), and `memoUnit` a
`Memo::new((), child)` whose unit dependency never changes. -/
inductive CTree where
  | counter
  | wrap (child : CTree)
  | memoUnit (child : CTree)

/-- Per-node persistent state across passes: a `memoUnit` node remembers
whether it has composed its child once (its unit dependency's memo key
can never differ afterwards). -/
inductive CState where
  | leaf
  | wrapS (s : CState)
  | memoS (seen : Bool) (s : CState)

/-- The state a node's `ScopeState` starts in when it first enters the
tree. -/
def initState : CTree → CState
  | .counter => .leaf
  | .wrap c => .wrapS (initState c)
  | .memoUnit c => .memoS false (initState c)

/-- Modelled from the spec: one recursive compose pass over the tree,
threading the externally observable counter.  A `counter` node
increments the counter; a `wrap` node composes its child; a `memoUnit`
node composes its child only when its dependency's memo key changed,
which for a unit dependency is only on the very first pass. -/
def composeTree : CTree → CState → Nat → CState × Nat
  | .counter, _, x => (.leaf, x + 1)
  | .wrap c, s, x =>
    let inner := match s with | .wrapS t => t | _ => initState c
    let r := composeTree c inner x
    (.wrapS r.1, r.2)
  | .memoUnit c, s, x =>
    match s with
    | .memoS true t => (.memoS true t, x)
    | .memoS false t =>
      let r := composeTree c t x
      (.memoS true r.1, r.2)
    | _ =>
      let r := composeTree c (initState c) x
      (.memoS true r.1, r.2)

/-- Embeds `Composer::compose` called `n` times from a fresh
`Composer::new(content)` with counter cell starting at 0. -/
def composerPassN (t : CTree) : Nat → CState × Nat
  | 0 => (initState t, 0)
  | n + 1 =>
    let r := composerPassN t n
    composeTree t r.1 r.2

end ActuateTree

namespace Actuate

/-- C2: an accepted `Mut::update(f)` applies `f` to the slot value,
bumps that slot's generation counter by exactly one and sets the owning
scope's `is_changed` flag; a `Mut::with(f)` applies `f` but leaves both
the generation counter and `is_changed` untouched.  Stated under the
immediate (default) updater, where the accepted update is applied at
once. -/
theorem mut_update_bumps_with_does_not (w : World V) (i g : Nat) (v : V) (f : V → V)
    (h : w.scope.hooks[i]? = some (.mutS v g)) :
    Mut.update (some .immediate) ⟨i⟩ f w =
      some { w with scope := { w.scope with
        hooks := w.scope.hooks.set i (.mutS (f v) (g + 1)),
        is_changed := true } } ∧
    Mut.with' (some .immediate) ⟨i⟩ f w =
      some { w with scope := { w.scope with
        hooks := w.scope.hooks.set i (.mutS (f v) g) } } := by
  constructor <;>
    simp [Mut.update, Mut.with', Runtime.current, Runtime.update, applyPending, h]

/-- Witness for `mut_update_bumps_with_does_not` at a concrete slot. -/
theorem mut_update_bumps_with_does_not_witness :
    Mut.update (V := Nat) (some .immediate) ⟨0⟩ (fun x => x + 5)
        ⟨⟨[.mutS 1 3], 1, false, false, false, false, [], [], 0⟩, []⟩ =
      some ⟨⟨[.mutS 6 4], 1, true, false, false, false, [], [], 0⟩, []⟩ ∧
    Mut.with' (V := Nat) (some .immediate) ⟨0⟩ (fun x => x + 5)
        ⟨⟨[.mutS 1 3], 1, false, false, false, false, [], [], 0⟩, []⟩ =
      some ⟨⟨[.mutS 6 3], 1, false, false, false, false, [], [], 0⟩, []⟩ :=
  mut_update_bumps_with_does_not
    ⟨⟨[.mutS 1 3], 1, false, false, false, false, [], [], 0⟩, []⟩ 0 3 1 (fun x => x + 5) rfl

/-- C5: with no Runtime installed on the thread, `Runtime::current`
panics, and therefore `Mut::update` and `Mut::with` fail loudly (the
mutation is not silently dropped into an unchanged world); with a
Runtime installed, `Runtime::current` returns it. -/
theorem runtime_current_panics_outside_runtime (w : World V) (i : Nat) (f : V → V)
    (rt : UpdaterKind) :
    Runtime.current none = .error ("Runtime current called outside of a runtime") ∧
    Mut.update none ⟨i⟩ f w = none ∧
    Mut.with' none ⟨i⟩ f w = none ∧
    Runtime.current (some rt) = .ok rt := by
  refine ⟨rfl, ?_, ?_, rfl⟩ <;> simp [Mut.update, Mut.with', Runtime.current]

/-- C9: under the default updater installed by `Composer::new`, an
update is applied the instant it is requested, so dereferencing the same
slot later in the same pass observes the new value; under the queued
policy the scope is untouched during the pass (the old value is still
read), the update is appended to the queue, and replaying the queue
applies updates in enqueue order (two queued updates on one slot compose
left-to-right). -/
theorem default_updater_immediate_queued_deferred (w : World V) (i g : Nat) (v : V)
    (f f' : V → V) (h : w.scope.hooks[i]? = some (.mutS v g)) :
    Mut.update (some .immediate) ⟨i⟩ f w =
      some { w with scope := { w.scope with
        hooks := w.scope.hooks.set i (.mutS (f v) (g + 1)),
        is_changed := true } } ∧
    Mut.deref { w.scope with
        hooks := w.scope.hooks.set i (.mutS (f v) (g + 1)),
        is_changed := true } ⟨i⟩ = some (f v) ∧
    Mut.update (some .queued) ⟨i⟩ f w =
      some { w with queue := w.queue ++ [.update i f] } ∧
    Mut.deref w.scope ⟨i⟩ = some v ∧
    flushQueue ⟨w.scope, [.update i f, .update i f']⟩ =
      some ⟨{ w.scope with
        hooks := w.scope.hooks.set i (.mutS (f' (f v)) (g + 2)),
        is_changed := true }, []⟩ := by
  have hlen : i < w.scope.hooks.length := by
    rcases List.getElem?_eq_some.mp h with ⟨hl, -⟩
    exact hl
  refine ⟨?_, ?_, ?_, ?_, ?_⟩
  · simp [Mut.update, Runtime.current, Runtime.update, applyPending, h]
  · simp [Mut.deref, List.getElem?_set_self hlen]
  · simp [Mut.update, Runtime.current, Runtime.update]
  · simp [Mut.deref, h]
  · simp [flushQueue, applyPending, h, List.getElem?_set_self hlen, List.set_set]

/-- Witness for `default_updater_immediate_queued_deferred` at a
concrete slot. -/
theorem default_updater_immediate_queued_deferred_witness :
    Mut.update (V := Nat) (some .immediate) ⟨0⟩ (fun x => x + 1)
        ⟨⟨[.mutS 4 9], 1, false, false, false, false, [], [], 0⟩, []⟩ =
      some ⟨⟨[.mutS 5 10], 1, true, false, false, false, [], [], 0⟩, []⟩ ∧
    Mut.deref (⟨[.mutS 5 10], 1, true, false, false, false, [], [], 0⟩ : ScopeData Nat) ⟨0⟩ =
      some 5 ∧
    Mut.update (V := Nat) (some .queued) ⟨0⟩ (fun x => x + 1)
        ⟨⟨[.mutS 4 9], 1, false, false, false, false, [], [], 0⟩, []⟩ =
      some ⟨⟨[.mutS 4 9], 1, false, false, false, false, [], [], 0⟩,
        [.update 0 (fun x => x + 1)]⟩ ∧
    Mut.deref (⟨[.mutS 4 9], 1, false, false, false, false, [], [], 0⟩ : ScopeData Nat) ⟨0⟩ =
      some 4 ∧
    flushQueue (V := Nat)
        ⟨⟨[.mutS 4 9], 1, false, false, false, false, [], [], 0⟩,
          [.update 0 (fun x => x + 1), .update 0 (fun x => x * 2)]⟩ =
      some ⟨⟨[.mutS 10 11], 1, true, false, false, false, [], [], 0⟩, []⟩ := by
  have h := default_updater_immediate_queued_deferred
    (V := Nat) ⟨⟨[.mutS 4 9], 1, false, false, false, false, [], [], 0⟩, []⟩ 0 9 4
    (fun x => x + 1) (fun x => x * 2) rfl
  simpa using h

/-- C8: the generation counter of a mutable slot changes only through a
committed `Mut::update` mutation: applying a `Mut::with` closure leaves
every slot's generation and the scope's `is_changed` unchanged; applying
a `Mut::update` closure bumps exactly the target slot's generation by
one and no other; and `Mut::as_ref`, `Memoize::memoized` (for `Mut` and
`Ref`) and dereferencing are reads over the same slot that alter
nothing. -/
theorem generation_changes_only_via_update (cx cxw cxu : ScopeData V) (i j : Nat)
    (f f' : V → V)
    (hw : applyPending cx (.withP i f) = some cxw)
    (hu : applyPending cx (.update i f') = some cxu) :
    (∀ k, Mut.memoized cxw ⟨k⟩ = Mut.memoized cx ⟨k⟩) ∧
    cxw.is_changed = cx.is_changed ∧
    Mut.memoized cxu ⟨i⟩ = (Mut.memoized cx ⟨i⟩).map (· + 1) ∧
    (j ≠ i → Mut.memoized cxu ⟨j⟩ = Mut.memoized cx ⟨j⟩) ∧
    Ref.memoized cx (Mut.as_ref ⟨i⟩) = Mut.memoized cx ⟨i⟩ ∧
    Ref.deref cx (Mut.as_ref ⟨i⟩) = Mut.deref cx ⟨i⟩ := by
  cases hm : cx.hooks[i]? with
  | none => simp [applyPending, hm] at hw
  | some slot =>
    cases slot with
    | ref v => simp [applyPending, hm] at hw
    | dropFn c s => simp [applyPending, hm] at hw
    | mutS v g =>
      have hlen : i < cx.hooks.length := by
        rcases List.getElem?_eq_some.mp hm with ⟨h1, -⟩
        exact h1
      simp only [applyPending, hm] at hw hu
      rw [Option.some_inj] at hw hu
      subst hw
      subst hu
      refine ⟨?_, rfl, ?_, ?_, ?_, ?_⟩
      · intro k
        by_cases hk : k = i
        · subst hk
          simp [Mut.memoized, hm, List.getElem?_set_self hlen]
        · simp [Mut.memoized, List.getElem?_set_ne (Ne.symm hk)]
      · simp [Mut.memoized, hm, List.getElem?_set_self hlen]
      · intro hj
        simp [Mut.memoized, List.getElem?_set_ne (Ne.symm hj)]
      · simp [Ref.memoized, Mut.memoized, Mut.as_ref]
      · simp [Ref.deref, Mut.deref, Mut.as_ref]

/-- Witness for `generation_changes_only_via_update` at a concrete
two-slot scope. -/
theorem generation_changes_only_via_update_witness :
    (∀ k, Mut.memoized
        (⟨[.mutS 8 2, .mutS 1 5], 2, false, false, false, false, [], [], 0⟩ : ScopeData Nat)
        ⟨k⟩ =
      Mut.memoized
        (⟨[.mutS 6 2, .mutS 1 5], 2, false, false, false, false, [], [], 0⟩ : ScopeData Nat)
        ⟨k⟩) ∧
    (false = false) ∧
    Mut.memoized
        (⟨[.mutS 7 3, .mutS 1 5], 2, true, false, false, false, [], [], 0⟩ : ScopeData Nat)
        ⟨0⟩ =
      (Mut.memoized
        (⟨[.mutS 6 2, .mutS 1 5], 2, false, false, false, false, [], [], 0⟩ : ScopeData Nat)
        ⟨0⟩).map (· + 1) ∧
    ((1 : Nat) ≠ 0 → Mut.memoized
        (⟨[.mutS 7 3, .mutS 1 5], 2, true, false, false, false, [], [], 0⟩ : ScopeData Nat)
        ⟨1⟩ =
      Mut.memoized
        (⟨[.mutS 6 2, .mutS 1 5], 2, false, false, false, false, [], [], 0⟩ : ScopeData Nat)
        ⟨1⟩) ∧
    Ref.memoized
        (⟨[.mutS 6 2, .mutS 1 5], 2, false, false, false, false, [], [], 0⟩ : ScopeData Nat)
        (Mut.as_ref ⟨0⟩) =
      Mut.memoized
        (⟨[.mutS 6 2, .mutS 1 5], 2, false, false, false, false, [], [], 0⟩ : ScopeData Nat)
        ⟨0⟩ ∧
    Ref.deref
        (⟨[.mutS 6 2, .mutS 1 5], 2, false, false, false, false, [], [], 0⟩ : ScopeData Nat)
        (Mut.as_ref ⟨0⟩) =
      Mut.deref
        (⟨[.mutS 6 2, .mutS 1 5], 2, false, false, false, false, [], [], 0⟩ : ScopeData Nat)
        ⟨0⟩ := by
  have h := generation_changes_only_via_update
    (V := Nat)
    ⟨[.mutS 6 2, .mutS 1 5], 2, false, false, false, false, [], [], 0⟩
    ⟨[.mutS 8 2, .mutS 1 5], 2, false, false, false, false, [], [], 0⟩
    ⟨[.mutS 7 3, .mutS 1 5], 2, true, false, false, false, [], [], 0⟩
    0 1 (fun x => x + 2) (fun x => x + 1) rfl rfl
  simpa using h

/-- C3: at a given hook slot, `use_ref`'s init closure runs exactly once
(on the first call, which stores its result), and every later pass at
that slot returns the stored value unchanged without running the new
init closure; the scope (and hence the slot the returned reference
points into) is a fixed point of every further pass. -/
theorem use_ref_init_runs_once (V : Type) (init init2 : Unit → V) :
    use_ref (freshScope V) init =
      some (init (), true,
        ⟨[.ref (init ())], 1, false, false, false, false, [], [], 0⟩) ∧
    use_ref (beginPass
        (⟨[.ref (init ())], 1, false, false, false, false, [], [], 0⟩ : ScopeData V)) init2 =
      some (init (), false,
        ⟨[.ref (init ())], 1, false, false, false, false, [], [], 0⟩) ∧
    ∀ n, refPasses init2
        (⟨[.ref (init ())], 1, false, false, false, false, [], [], 0⟩ : ScopeData V) n =
      some ⟨[.ref (init ())], 1, false, false, false, false, [], [], 0⟩ := by
  refine ⟨by simp [use_ref, freshScope], by simp [use_ref, beginPass], ?_⟩
  intro n
  induction n with
  | zero => simp [refPasses]
  | succ n ih => simp [refPasses, ih, use_ref, beginPass]

end Actuate

namespace ActuateCow

/-- C10: `Cow::Owned(v).into_owned()` returns `v` itself;
`Cow::Borrowed(r).into_owned()` returns a clone of the referenced value;
and whenever `clone` produces an equal value, dereferencing a `Cow`
before `into_owned` yields the same value `into_owned` returns. -/
theorem cow_into_owned_spec (β α : Type) (clone : α → α) (v : α) (r : RefMap β α)
    (c : Cow β α) (hc : ∀ x, clone x = x) :
    Cow.into_owned clone (Cow.Owned (β := β) v) = v ∧
    Cow.into_owned clone (Cow.Borrowed r) = clone r.deref ∧
    c.deref = c.into_owned clone := by
  refine ⟨rfl, rfl, ?_⟩
  cases c with
  | Borrowed r => simp [Cow.deref, Cow.into_owned, hc]
  | Owned v => rfl

/-- Witness for `cow_into_owned_spec` with `T = Nat` and the identity
clone. -/
theorem cow_into_owned_spec_witness :
    Cow.into_owned (fun x => x) (Cow.Owned (β := Nat) (5 : Nat)) = 5 ∧
    Cow.into_owned (fun x => x) (Cow.Borrowed (RefMap.mapped (3 : Nat) (fun b => b + 4))) =
      (fun x => x) (RefMap.deref (RefMap.mapped (3 : Nat) (fun b => b + 4))) ∧
    Cow.deref (Cow.Borrowed (RefMap.mapped (3 : Nat) (fun b => b + 4))) =
      Cow.into_owned (fun x => x) (Cow.Borrowed (RefMap.mapped (3 : Nat) (fun b => b + 4))) :=
  cow_into_owned_spec Nat Nat (fun x => x) 5 (RefMap.mapped 3 (fun b => b + 4))
    (Cow.Borrowed (RefMap.mapped 3 (fun b => b + 4))) (fun _ => rfl)

end ActuateCow

namespace Actuate

/-- C4: `use_context::<T>` returns `Ok` with the value registered by the
nearest enclosing `use_provider` of type `T` — a scope with no provider
at all yields a recoverable `ContextError` naming `T`, a child of a
providing scope reads that provider's value, a closer provider of the
same type overrides an inherited one, and a type nobody provided still
errors with its own name. -/
theorem use_context_nearest_provider (V : Type) (t t' : Nat) (v1 v2 : V) (hne : t' ≠ t) :
    use_context (freshScope V) t = .error ⟨t⟩ ∧
    use_provider (freshScope V) t (fun _ => v1) =
      some (v1, ⟨[.ref v1], 1, false, false, false, false, [(t, v1)], [], 0⟩) ∧
    use_context (childScope
      (⟨[.ref v1], 1, false, false, false, false, [(t, v1)], [], 0⟩ : ScopeData V)) t =
      .ok v1 ∧
    use_provider (childScope
      (⟨[.ref v1], 1, false, false, false, false, [(t, v1)], [], 0⟩ : ScopeData V)) t
      (fun _ => v2) =
      some (v2, ⟨[.ref v2], 1, false, false, false, false, [(t, v2)], [], 0⟩) ∧
    use_context (childScope
      (⟨[.ref v2], 1, false, false, false, false, [(t, v2)], [], 0⟩ : ScopeData V)) t =
      .ok v2 ∧
    use_context (childScope
      (⟨[.ref v1], 1, false, false, false, false, [(t, v1)], [], 0⟩ : ScopeData V)) t' =
      .error ⟨t'⟩ := by
  refine ⟨?_, ?_, ?_, ?_, ?_, ?_⟩
  · simp [use_context, ctxLookup, freshScope]
  · simp [use_provider, freshScope, ctxInsert]
  · simp [use_context, ctxLookup, childScope, freshScope]
  · simp [use_provider, childScope, freshScope, ctxInsert]
  · simp [use_context, ctxLookup, childScope, freshScope]
  · simp [use_context, ctxLookup, childScope, freshScope, Ne.symm hne]

/-- Witness for `use_context_nearest_provider` at concrete type ids and
values. -/
theorem use_context_nearest_provider_witness :
    use_context (freshScope Nat) 3 = .error ⟨3⟩ ∧
    use_provider (freshScope Nat) 3 (fun _ => 10) =
      some (10, ⟨[.ref 10], 1, false, false, false, false, [(3, 10)], [], 0⟩) ∧
    use_context (childScope
      (⟨[.ref 10], 1, false, false, false, false, [(3, 10)], [], 0⟩ : ScopeData Nat)) 3 =
      .ok 10 ∧
    use_provider (childScope
      (⟨[.ref 10], 1, false, false, false, false, [(3, 10)], [], 0⟩ : ScopeData Nat)) 3
      (fun _ => 20) =
      some (20, ⟨[.ref 20], 1, false, false, false, false, [(3, 20)], [], 0⟩) ∧
    use_context (childScope
      (⟨[.ref 20], 1, false, false, false, false, [(3, 20)], [], 0⟩ : ScopeData Nat)) 3 =
      .ok 20 ∧
    use_context (childScope
      (⟨[.ref 10], 1, false, false, false, false, [(3, 10)], [], 0⟩ : ScopeData Nat)) 4 =
      .error ⟨4⟩ :=
  use_context_nearest_provider Nat 3 4 10 20 (by decide)

/-- C1: on the second of two consecutive `use_memo` calls at the same
hook slot of the same scope (value and key slots populated by the first
call): when the dependency's memo key equals the stored key, `make_value`
is not invoked and the returned reference still dereferences to the
previously stored value with both slots untouched; when it differs,
`make_value` runs exactly once and both the stored value and stored key
are silently overwritten — the scope's `is_changed` flag and the slots'
generation counters are left as they were in both cases.  Stated under
the default (immediate) updater installed by `Composer::new`. -/
theorem use_memo_skips_or_recomputes [DecidableEq V] (w : World V) (i gv gk : Nat)
    (v k depKey : V) (mk : Unit → V)
    (hidx : w.scope.hook_idx = i)
    (hv : w.scope.hooks[i]? = some (.mutS v gv))
    (hk : w.scope.hooks[i + 1]? = some (.mutS k gk)) :
    (depKey = k →
      use_memo (some .immediate) w depKey mk =
        some ⟨⟨i⟩, { w with scope := { w.scope with hook_idx := i + 2 } }, 0⟩ ∧
      Ref.deref { w.scope with hook_idx := i + 2 } ⟨i⟩ = some v) ∧
    (depKey ≠ k →
      use_memo (some .immediate) w depKey mk =
        some ⟨⟨i⟩, { w with scope := { w.scope with
          hooks := (w.scope.hooks.set i (.mutS (mk ()) gv)).set (i + 1) (.mutS depKey gk),
          hook_idx := i + 2 } }, 1⟩) := by
  have hlen1 : i + 1 < w.scope.hooks.length := (List.getElem?_eq_some.mp hk).1
  have h0 : ¬ (w.scope.hooks.length ≤ i) := by omega
  have h1 : ¬ (w.scope.hooks.length ≤ i + 1) := by omega
  constructor
  · intro hdep
    subst hdep
    constructor
    · simp [use_memo, use_mut, hidx, h0, h1, hv, hk, Mut.deref, Mut.as_ref]
    · simp [Ref.deref, hv]
  · intro hdep
    simp [use_memo, use_mut, hidx, h0, h1, hv, hk, Mut.deref, Mut.as_ref, hdep,
      Mut.with', Runtime.current, Runtime.update, applyPending,
      List.getElem?_set_ne (by omega : i ≠ i + 1)]

/-- Witness for `use_memo_skips_or_recomputes` at a concrete two-slot
scope, covering the unchanged-key and the changed-key cases. -/
theorem use_memo_skips_or_recomputes_witness :
    ((99 : Nat) = 99 →
      use_memo (V := Nat) (some .immediate)
          ⟨⟨[.mutS 10 4, .mutS 99 6], 0, false, false, false, false, [], [], 0⟩, []⟩ 99
          (fun _ => 555) =
        some ⟨⟨0⟩,
          ⟨⟨[.mutS 10 4, .mutS 99 6], 2, false, false, false, false, [], [], 0⟩, []⟩, 0⟩ ∧
      Ref.deref
          (⟨[.mutS 10 4, .mutS 99 6], 2, false, false, false, false, [], [], 0⟩ : ScopeData Nat)
          ⟨0⟩ = some 10) ∧
    ((99 : Nat) ≠ 98 →
      use_memo (V := Nat) (some .immediate)
          ⟨⟨[.mutS 10 4, .mutS 98 6], 0, false, false, false, false, [], [], 0⟩, []⟩ 99
          (fun _ => 555) =
        some ⟨⟨0⟩,
          ⟨⟨([.mutS 10 4, .mutS 98 6].set 0 (.mutS 555 4)).set 1 (.mutS 99 6),
            2, false, false, false, false, [], [], 0⟩, []⟩, 1⟩) :=
  ⟨(use_memo_skips_or_recomputes (V := Nat)
      ⟨⟨[.mutS 10 4, .mutS 99 6], 0, false, false, false, false, [], [], 0⟩, []⟩
      0 4 6 10 99 99 (fun _ => 555) rfl rfl rfl).1,
   (use_memo_skips_or_recomputes (V := Nat)
      ⟨⟨[.mutS 10 4, .mutS 98 6], 0, false, false, false, false, [], [], 0⟩, []⟩
      0 4 6 10 98 99 (fun _ => 555) rfl rfl rfl).2⟩

/-- Registration pass from an aligned cursor: each `use_drop` call
appends a fresh callback slot and records its index, in order. -/
theorem registerAll_fresh (cbs : List Nat) :
    ∀ (hs : List (HookSlot V)) (c pc e ct : Bool) (cxm : List (Nat × V)) (ds : List Nat)
      (g : Nat),
      registerAll (⟨hs, hs.length, c, pc, e, ct, cxm, ds, g⟩ : ScopeData V) cbs =
        some ⟨hs ++ cbs.map fun cb => .dropFn cb false, hs.length + cbs.length,
          c, pc, e, ct, cxm, ds ++ List.range' hs.length cbs.length, g⟩ := by
  induction cbs with
  | nil => intro hs c pc e ct cxm ds g; simp [registerAll]
  | cons cb rest ih =>
    intro hs c pc e ct cxm ds g
    have step : use_drop (⟨hs, hs.length, c, pc, e, ct, cxm, ds, g⟩ : ScopeData V) cb =
        some ⟨hs ++ [.dropFn cb false], hs.length + 1, c, pc, e, ct, cxm,
          ds ++ [hs.length], g⟩ := by
      simp [use_drop]
    have ih' := ih (hs ++ [HookSlot.dropFn cb false]) c pc e ct cxm (ds ++ [hs.length]) g
    simp only [List.length_append, List.length_cons, List.length_nil] at ih'
    simp only [registerAll, step, ih']
    simp [List.append_assoc, List.range'_succ]
    omega

/-- A pass over a scope whose upcoming slots are all teardown slots
re-registers nothing: it only advances the hook cursor. -/
theorem registerAll_noop (cbs2 : List Nat) :
    ∀ (cx : ScopeData V),
      cx.hook_idx + cbs2.length ≤ cx.hooks.length →
      (∀ (j : Nat) (s : HookSlot V), cx.hooks[j]? = some s → HookSlot.isDrop s = true) →
      registerAll cx cbs2 = some { cx with hook_idx := cx.hook_idx + cbs2.length } := by
  induction cbs2 with
  | nil => intro cx _ _; simp [registerAll]
  | cons cb rest ih =>
    intro cx hlen hdrop
    have hidx : cx.hook_idx < cx.hooks.length := by simp at hlen; omega
    have hget : ∃ s, cx.hooks[cx.hook_idx]? = some s := by
      rw [List.getElem?_eq_getElem hidx]
      exact ⟨_, rfl⟩
    rcases hget with ⟨s, hs⟩
    have hd := hdrop _ _ hs
    cases s with
    | ref v => simp [HookSlot.isDrop] at hd
    | mutS v g => simp [HookSlot.isDrop] at hd
    | dropFn c sp =>
      have step : use_drop cx cb = some { cx with hook_idx := cx.hook_idx + 1 } := by
        have : ¬ (cx.hooks.length ≤ cx.hook_idx) := by omega
        simp [use_drop, this, hs]
      have ih' := ih { cx with hook_idx := cx.hook_idx + 1 }
        (by simp at hlen ⊢; omega) (by simpa using hdrop)
      simp only [registerAll, step, ih', List.length_cons]
      have harith : cx.hook_idx + 1 + rest.length = cx.hook_idx + (rest.length + 1) := by
        omega
      rw [harith]

/-- Destroying a scope whose hooks are fresh teardown slots recorded at
consecutive indices runs every callback once, in order. -/
theorem runDrops_fresh (cbs : List Nat) :
    ∀ (pre : List (HookSlot V)),
      runDrops (pre ++ cbs.map fun c => .dropFn c false)
          (List.range' pre.length cbs.length) =
        some (cbs, pre ++ cbs.map fun c => .dropFn c true) := by
  induction cbs with
  | nil => intro pre; simp [runDrops]
  | cons cb rest ih =>
    intro pre
    have hget : (pre ++ (HookSlot.dropFn (V := V) cb false) ::
        (rest.map fun c => .dropFn c false))[pre.length]? =
        some (.dropFn cb false) := by
      rw [List.getElem?_append_right (Nat.le_refl _)]
      simp
    have hset : (pre ++ (HookSlot.dropFn (V := V) cb false) ::
        (rest.map fun c => .dropFn c false)).set pre.length (.dropFn cb true) =
        (pre ++ [HookSlot.dropFn cb true]) ++ (rest.map fun c => .dropFn c false) := by
      rw [List.set_append_right _ _ (Nat.le_refl _)]
      simp
    have ih' := ih (pre ++ [HookSlot.dropFn cb true])
    simp only [List.length_append, List.length_cons, List.length_nil] at ih'
    simp only [List.map_cons, List.range'_succ, runDrops, hget, hset, ih']
    simp [List.append_assoc]

/-- C6: registering teardown callbacks through `use_drop` records each
once; while the scope merely survives further passes nothing runs and
nothing is re-registered; and destroying the `ScopeState` runs every
registered callback exactly once, in registration order. -/
theorem use_drop_runs_once_in_order (V : Type) (cbs cbs2 : List Nat)
    (hlen : cbs2.length = cbs.length) :
    registerAll (freshScope V) cbs =
      some ⟨cbs.map fun c => .dropFn c false, cbs.length, false, false, false, false, [],
        List.range cbs.length, 0⟩ ∧
    registerAll (beginPass
        (⟨cbs.map fun c => .dropFn c false, cbs.length, false, false, false, false, [],
          List.range cbs.length, 0⟩ : ScopeData V)) cbs2 =
      some ⟨cbs.map fun c => .dropFn c false, cbs.length, false, false, false, false, [],
        List.range cbs.length, 0⟩ ∧
    destroy (⟨cbs.map fun c => .dropFn c false, cbs.length, false, false, false, false, [],
        List.range cbs.length, 0⟩ : ScopeData V) =
      some cbs := by
  refine ⟨?_, ?_, ?_⟩
  · have h := registerAll_fresh (V := V) cbs [] false false false false [] [] 0
    simpa [freshScope, List.range_eq_range'] using h
  · have h := registerAll_noop (V := V) cbs2
      (beginPass (⟨cbs.map fun c => .dropFn c false, cbs.length, false, false, false, false,
        [], List.range cbs.length, 0⟩ : ScopeData V))
      (by simp [beginPass, hlen]) ?_
    · simpa [beginPass, hlen] using h
    · intro j s hj
      simp only [beginPass] at hj
      simp only [List.getElem?_map] at hj
      rcases Option.map_eq_some'.mp hj with ⟨c, -, rfl⟩
      rfl
  · have h := runDrops_fresh (V := V) cbs []
    simp only [List.nil_append, List.length_nil] at h
    simp [destroy, List.range_eq_range', h]

/-- Witness for `use_drop_runs_once_in_order` at two concrete callback
label sequences of equal length. -/
theorem use_drop_runs_once_in_order_witness :
    registerAll (freshScope Nat) [5, 7] =
      some ⟨[.dropFn 5 false, .dropFn 7 false], 2, false, false, false, false, [],
        List.range 2, 0⟩ ∧
    registerAll (beginPass
        (⟨[.dropFn 5 false, .dropFn 7 false], 2, false, false, false, false, [],
          List.range 2, 0⟩ : ScopeData Nat)) [9, 11] =
      some ⟨[.dropFn 5 false, .dropFn 7 false], 2, false, false, false, false, [],
        List.range 2, 0⟩ ∧
    destroy (⟨[.dropFn 5 false, .dropFn 7 false], 2, false, false, false, false, [],
        List.range 2, 0⟩ : ScopeData Nat) =
      some [5, 7] := by
  have h := use_drop_runs_once_in_order Nat [5, 7] [9, 11] rfl
  simpa using h

end Actuate

namespace ActuateTree

/-- The counter-under-wrapper tree increments the external counter on
every pass. -/
theorem composerPassN_wrap_counter (n : Nat) :
    composerPassN (.wrap .counter) n = (.wrapS .leaf, n) := by
  induction n with
  | zero => rfl
  | succ n ih => simp [composerPassN, ih, composeTree]

/-- The memoized counter composes its child on the first pass only; its
unit dependency never changes afterwards. -/
theorem composerPassN_wrap_memo (n : Nat) :
    composerPassN (.wrap (.memoUnit .counter)) (n + 1) =
      (.wrapS (.memoS true .leaf), 1) := by
  induction n with
  | zero => rfl
  | succ n ih =>
    have hstep : composerPassN (.wrap (.memoUnit .counter)) (n + 1 + 1) =
        composeTree (.wrap (.memoUnit .counter))
          (composerPassN (.wrap (.memoUnit .counter)) (n + 1)).1
          (composerPassN (.wrap (.memoUnit .counter)) (n + 1)).2 := rfl
    rw [hstep, ih]
    rfl

/-- C7: a counter-incrementing composable one level under a forwarding
wrapper shows counter 1 after the first `Composer::compose` and 2 after
the second, with no external mutation in between; and when the counter
child sits under a memoization with an unchanged unit dependency, the
counter stays at 1 after any number of further passes. -/
theorem composer_counter_and_memo_scenario (n : Nat) :
    (composerPassN (.wrap .counter) 1).2 = 1 ∧
    (composerPassN (.wrap .counter) 2).2 = 2 ∧
    (composerPassN (.wrap .counter) n).2 = n ∧
    (composerPassN (.wrap (.memoUnit .counter)) n).2 = min n 1 := by
  refine ⟨rfl, rfl, by simp [composerPassN_wrap_counter], ?_⟩
  cases n with
  | zero => rfl
  | succ m => simp [composerPassN_wrap_memo]

end ActuateTree
